import Mathlib

/-!
Shallow embedding of `src/components/staging-parser.ts` from the
`jira-to-analytics` repository, together with theorems settling the frozen
claims about its specification.

Modeling conventions:

* A calendar day is an `Int`: the number of days since 1970-01-01 (a
  Thursday), converted to and from `YYYY-MM-DD` strings with the standard
  civil-calendar algorithms.  A `moment` object at day precision is a
  `Moment := Option Int`, where `none` models an *invalid* moment (what
  `moment(badString)` produces); a JavaScript variable that may be
  `undefined` and otherwise holds a moment is an `Option Moment`.
* The business-day capability (`moment-business-days`) uses the default
  Monday-Friday calendar with no holidays, exactly as the repository does
  (it never configures holidays).  Its `businessAdd`/`businessSubtract`
  walk one day at a time until the requested number of business days has
  been crossed; with the Mon-Fri calendar at most two consecutive days are
  skipped, which the step functions below resolve directly.  On an invalid
  moment the library's loop would never terminate for a positive count; the
  embedding maps invalid to invalid, and no theorem below depends on that
  path.  `businessDiff` counts business days in the half-open range from
  the earlier to the later date and returns 0 when either side is invalid.
* The source stores derived records with `map[key] = value` bracket
  assignments and reads them back with `map[key]`; this is modeled as an
  association list with most-recent-assignment-wins lookup (`mapGet`).
* JavaScript `Array.prototype.sort` is invoked with the comparator
  `a.created < b.created ? -1 : 1`; the embedding uses a stable insertion
  sort by the `created` string, which sorts by the same key (the tie order
  among equal timestamps is unspecified in the source; equal timestamps
  carry equal dates, so no claim below is sensitive to it).
-/

/-- True for years with 366 days in the proleptic Gregorian calendar. -/
def isLeapYear (y : Nat) : Bool :=
  (y % 4 == 0 && y % 100 != 0) || y % 400 == 0

/-- Number of days of month `m` (1-12) of year `y`. -/
def daysInMonth (y m : Nat) : Nat :=
  if m == 2 then (if isLeapYear y then 29 else 28)
  else if m == 4 || m == 6 || m == 9 || m == 11 then 30
  else 31

/-- Days since 1970-01-01 of the civil date `y-m-d` (standard
`days_from_civil` algorithm, for years from 1 onwards). -/
def daysFromCivil (y m d : Nat) : Int :=
  let yAdj := if m ≤ 2 then y - 1 else y
  let era := yAdj / 400
  let yoe := yAdj % 400
  let mp := if m > 2 then m - 3 else m + 9
  let doy := (153 * mp + 2) / 5 + d - 1
  let doe := yoe * 365 + yoe / 4 - yoe / 100 + doy
  (era * 146097 + doe : Int) - 719468

/-- Civil date `(y, m, d)` of a day number (standard `civil_from_days`). -/
def civilFromDays (z : Int) : Nat × Nat × Nat :=
  let zn := (z + 719468).toNat
  let era := zn / 146097
  let doe := zn % 146097
  let yoe := (doe - doe / 1460 + doe / 36524 - doe / 146096) / 365
  let y := yoe + era * 400
  let doy := doe - (365 * yoe + yoe / 4 - yoe / 100)
  let mp := (5 * doy + 2) / 153
  let d := doy - (153 * mp + 2) / 5 + 1
  let m := if mp < 10 then mp + 3 else mp - 9
  if m ≤ 2 then (y + 1, m, d) else (y, m, d)

/-- Left-pad the decimal representation of `n` with zeros to width `w`. -/
def padNum (w n : Nat) : String :=
  let s := toString n
  String.mk (List.replicate (w - s.length) '0') ++ s

/-- `moment.format('YYYY-MM-DD')` on a valid day number. -/
def formatDay (z : Int) : String :=
  let c := civilFromDays z
  padNum 4 c.1 ++ "-" ++ padNum 2 c.2.1 ++ "-" ++ padNum 2 c.2.2

/-- Fold a list of decimal digit characters into a `Nat`. -/
def digitsToNat (cs : List Char) : Nat :=
  cs.foldl (fun n c => n * 10 + (c.toNat - '0'.toNat)) 0

/-- A `moment` at day precision: `some` day number, or `none` for an
invalid moment (`moment(unparsableString)`). -/
abbrev Moment : Type := Option Int

/-- `moment(s)` for the day-precision strings the parser builds
(`created.split('T')[0]`): accepts exactly `YYYY-MM-DD` with a valid
calendar date (years from 1), anything else is an invalid moment. -/
def momentOf (s : String) : Moment :=
  match s.toList with
  | [y1, y2, y3, y4, '-', m1, m2, '-', d1, d2] =>
    if ([y1, y2, y3, y4, m1, m2, d1, d2]).all Char.isDigit then
      let y := digitsToNat [y1, y2, y3, y4]
      let m := digitsToNat [m1, m2]
      let d := digitsToNat [d1, d2]
      if 1 ≤ y && 1 ≤ m && m ≤ 12 && 1 ≤ d && d ≤ daysInMonth y m then
        some (daysFromCivil y m d)
      else none
    else none
  | _ => none

/-- `moment.format('YYYY-MM-DD')`; an invalid moment formats as the string
`"Invalid date"`. -/
def formatM (m : Moment) : String :=
  match m with
  | some z => formatDay z
  | none => "Invalid date"

/-- Day-of-week of a day number, in moment's convention: Sunday = 0,
... Saturday = 6 (day 0 = 1970-01-01 is a Thursday = 4). -/
def dayOfWeek (z : Int) : Int :=
  (z + 4) % 7

/-- `moment-business-days` default calendar: business days are Mon-Fri. -/
def isBusinessDay (z : Int) : Bool :=
  dayOfWeek z != 0 && dayOfWeek z != 6

/-- One iteration block of the `businessAdd` loop: the next business day
strictly after `z` (with the Mon-Fri calendar at most two consecutive days
are non-business, so three probes suffice). -/
def nextBusinessDay (z : Int) : Int :=
  if isBusinessDay (z + 1) then z + 1
  else if isBusinessDay (z + 2) then z + 2
  else z + 3

/-- One iteration block of the `businessAdd` loop with negative sign: the
previous business day strictly before `z`. -/
def prevBusinessDay (z : Int) : Int :=
  if isBusinessDay (z - 1) then z - 1
  else if isBusinessDay (z - 2) then z - 2
  else z - 3

/-- `moment.businessAdd(n)` on a valid day number. -/
def businessAdd (z : Int) : Nat → Int
  | 0 => z
  | n + 1 => businessAdd (nextBusinessDay z) n

/-- `moment.businessSubtract(n)` on a valid day number. -/
def businessSubtract (z : Int) : Nat → Int
  | 0 => z
  | n + 1 => businessSubtract (prevBusinessDay z) n

/-- `end.businessDiff(start)` on valid day numbers: the number of business
days in the half-open range from the earlier to the later date. -/
def businessDiffDays (a b : Int) : Nat :=
  let s := min a b
  let e := max a b
  ((List.range (e - s).toNat).filter (fun i => isBusinessDay (s + i))).length

/-- `businessSubtract` lifted to moments (invalid stays invalid; see the
module comment about the library's divergence on invalid moments). -/
def businessSubtractM (m : Moment) (n : Nat) : Moment :=
  Option.map (businessSubtract · n) m

/-- `businessAdd` lifted to moments. -/
def businessAddM (m : Moment) (n : Nat) : Moment :=
  Option.map (businessAdd · n) m

/-- `end.businessDiff(start)` lifted to moments: `moment-business-days`
returns 0 whenever either side is invalid. -/
def businessDiffM (e s : Moment) : Nat :=
  match e, s with
  | some ez, some sz => businessDiffDays ez sz
  | _, _ => 0

/-- `created.split('T')[0]`: the prefix of the string before the first
`T` (the whole string when no `T` occurs). -/
def splitT (s : String) : String :=
  String.mk (s.data.takeWhile (fun c => c != 'T'))

/-- JavaScript string comparison `a < b`: lexicographic by code unit
(the timestamps compared are ASCII, where code units and characters
coincide). -/
def strLtB : List Char → List Char → Bool
  | [], [] => false
  | [], _ :: _ => true
  | _ :: _, [] => false
  | a :: as, b :: bs => if a < b then true else if b < a then false else strLtB as bs

/-- `String.toLowerCase()` for the ASCII stage names compared against
`'done'`. -/
def lowerStr (s : String) : String :=
  String.mk (s.data.map Char.toLower)

/-- One raw changelog field-change record (`JiraApiBaseItem`): `fromString`
and `toString` may be `null` in the JSON, modeled as `Option`. -/
structure JiraApiBaseItem where
  field : String
  fromString : Option String
  toString : Option String
  deriving DecidableEq

/-- One changelog history entry: a timestamp and its field changes. -/
structure JiraApiHistory where
  created : String
  items : List JiraApiBaseItem
  deriving DecidableEq

/-- The changelog: `issue.changelog.histories`. -/
structure JiraChangelog where
  histories : List JiraApiHistory
  deriving DecidableEq

/-- `issue.fields`: only the creation timestamp is read by this core. -/
structure JiraApiIssueFields where
  created : String
  deriving DecidableEq

/-- A raw issue as consumed by `getStagingDates`. -/
structure JiraApiIssue where
  fields : JiraApiIssueFields
  changelog : JiraChangelog
  deriving DecidableEq

/-- A derived status transition (`JiraComputedItem`): built fresh from the
changelog, later annotated with the previous transition's timestamp. -/
structure JiraComputedItem where
  fromString : Option String
  toString : Option String
  created : String
  previousCreated : Option String := none
  deriving DecidableEq

/-- Per-active-stage duration record (`StagePassedDays`). -/
structure StagePassedDays where
  didHappen : Bool
  passedDays : Nat
  deriving DecidableEq

/-- The workflow argument: only `Object.keys(workflow)` is used, i.e. the
ordered list of stage names (unique, in insertion order). -/
structure Workflow where
  stages : List String
  deriving DecidableEq

/-- Bracket assignment `m[k] = v` on the side tables: the most recent
assignment wins on lookup, so it is modeled by prepending. -/
def mapAssign (m : List (String × α)) (k : String) (v : α) : List (String × α) :=
  (k, v) :: m

/-- Bracket read `m[k]`: `none` models reading an unassigned key
(JavaScript `undefined`). -/
def mapGet (m : List (String × α)) (k : String) : Option α :=
  (m.find? (fun p => p.1 == k)).map (·.2)

/-- Stable insertion into a list already sorted by `created` (ascending,
lexicographic string order, matching the source comparator
`a.created < b.created ? -1 : 1`). -/
def insertByCreated (x : JiraComputedItem) : List JiraComputedItem → List JiraComputedItem
  | [] => [x]
  | y :: ys =>
    if strLtB y.created.data x.created.data then y :: insertByCreated x ys
    else x :: y :: ys

/-- The `.sort(...)` call: stable sort by the `created` string. -/
def sortByCreated (l : List JiraComputedItem) : List JiraComputedItem :=
  l.foldr insertByCreated []

/-- The `forEach` pass of `processHistories` that sets each item's
`previousCreated` to the previous item's `created`.  The source guards the
write with a truthiness check on the running variable (`if (previousCreated)`),
so an initial undefined value and an empty-string timestamp behave alike;
`prev = ""` models both. -/
def annotatePrevious (prev : String) : List JiraComputedItem → List JiraComputedItem
  | [] => []
  | item :: rest =>
    (if prev != "" then { item with previousCreated := some prev } else item)
      :: annotatePrevious item.created rest

/-- `processHistories`: keep only status field changes, flatten them with
their history timestamps, sort by timestamp, annotate `previousCreated`. -/
def processHistories (issue : JiraApiIssue) : List JiraComputedItem :=
  let flattened :=
    ((issue.changelog.histories.map (fun history =>
        (history.created, history.items.filter (fun historyItem => historyItem.field == "status"))))
      |>.filter (fun entry => entry.2.length > 0)
      |>.map (fun entry => entry.2.map (fun item =>
        ({ fromString := item.fromString, toString := item.toString,
           created := entry.1 } : JiraComputedItem)))).flatten
  annotatePrevious "" (sortByCreated flattened)

/-- The `reduce` body of `processActiveStatuses` over one active stage's
episodes (the transitions leaving that stage), threading the once-only
anchor (`activeStatusDate`).  The source's in-place defaulting of a missing
`previousCreated` to the issue creation timestamp
(`item.previousCreated = issue.fields.created`) writes to the freshly
derived `JiraComputedItem`, which no later pass reads back, so it is
modeled by the local binding `prevC`. -/
def episodeStep (issue : JiraApiIssue)
    (acc : StagePassedDays × Option Moment) (item : JiraComputedItem) :
    StagePassedDays × Option Moment :=
  let prevC := match item.previousCreated with
    | some p => p
    | none => issue.fields.created
  let statusStart := momentOf (splitT prevC)
  let statusEnd := momentOf (splitT item.created)
  let anchor := match acc.2 with
    | none => some statusStart
    | some a => some a
  (⟨true, acc.1.passedDays + businessDiffM statusEnd statusStart⟩, anchor)

/-- The episode reduce itself, threading the duration accumulator and the
anchor. -/
def episodeFold (issue : JiraApiIssue) (items : List JiraComputedItem)
    (anchor0 : Option Moment) : StagePassedDays × Option Moment :=
  items.foldl (episodeStep issue) (⟨false, 0⟩, anchor0)

/-- One iteration of the per-stage loop of `processActiveStatuses`: run the
episode reduce for `stage` and store its duration record. -/
def activeStageStep (issue : JiraApiIssue) (sortedItems : List JiraComputedItem)
    (acc : List (String × StagePassedDays) × Option Moment) (stage : String) :
    List (String × StagePassedDays) × Option Moment :=
  let r := episodeFold issue
    (sortedItems.filter (fun item => item.fromString == some stage)) acc.2
  (mapAssign acc.1 stage r.1, r.2)

/-- `processActiveStatuses`: one `StagePassedDays` record per active stage
(iterated in workflow order), plus the anchor date, set exactly once at the
first episode encountered. -/
def processActiveStatuses (issue : JiraApiIssue) (stages : List String)
    (activeStatuses : List String) (sortedItems : List JiraComputedItem) :
    List (String × StagePassedDays) × Option Moment :=
  (stages.filter (fun stage => activeStatuses.contains stage)).foldl
    (activeStageStep issue sortedItems) ([], none)

/-- One iteration of the per-stage loop of `processInactiveStates`: record
the date of the first transition entering `stage`, when one exists. -/
def inactiveStageStep (sortedItems : List JiraComputedItem)
    (dates : List (String × Moment)) (stage : String) : List (String × Moment) :=
  match sortedItems.find? (fun item => item.toString == some stage) with
  | none => dates
  | some firstStageItem => mapAssign dates stage (momentOf (splitT firstStageItem.created))

/-- `processInactiveStates`: for each inactive stage, the date of the first
transition entering it (when one exists). -/
def processInactiveStates (stages : List String) (activeStatuses : List String)
    (sortedItems : List JiraComputedItem) : List (String × Moment) :=
  (stages.filter (fun stage => !(activeStatuses.contains stage))).foldl
    (inactiveStageStep sortedItems) []

/-- The traversal order of the Done branch: the source reverses the
`activeStatuses` argument itself (`[...activeStatuses].reverse()`). -/
def activeStatusesReversedOf (activeStatuses : List String) : List String :=
  activeStatuses.reverse

/-- The `forEach` loop of `mapDoneIssue`: walk the reversed active statuses,
skip records with `didHappen = false`, otherwise subtract the record's
passed business days from the cursor and assign the result as the stage's
simulated date.  Reading `.didHappen` of an unassigned record, or calling
`businessSubtract` on an undefined cursor, is a JavaScript `TypeError`,
modeled as `Except.error`. -/
def doneLoop (pdMap : List (String × StagePassedDays)) :
    List String → Option Moment → List (String × Moment) →
    Except String (Option Moment × List (String × Moment))
  | [], cursor, dates => .ok (cursor, dates)
  | status :: rest, cursor, dates =>
    match mapGet pdMap status with
    | none => .error "TypeError: cannot read didHappen of undefined"
    | some passedDaysResult =>
      if !passedDaysResult.didHappen then
        doneLoop pdMap rest cursor dates
      else
        match cursor with
        | none => .error "TypeError: cannot call businessSubtract on undefined"
        | some c =>
          let next := businessSubtractM c passedDaysResult.passedDays
          doneLoop pdMap rest (some next) (mapAssign dates status next)

/-- The final `stages.map` of `mapDoneIssue`:
`(date && date.format('YYYY-MM-DD')) || ''`. -/
def doneEmit (activeStatuses : List String) (activeStatusDates : List (String × Moment))
    (inactiveStatusesDates : List (String × Moment)) (stage : String) : String :=
  let date := if activeStatuses.contains stage
    then mapGet activeStatusDates stage
    else mapGet inactiveStatusesDates stage
  (date.map formatM).getD ""

/-- `mapDoneIssue`: backward simulation from the Done date. -/
def mapDoneIssue (stages : List String) (activeStatuses : List String)
    (activeStatusesPassedDays : List (String × StagePassedDays))
    (inactiveStatusesDates : List (String × Moment)) : Except String (List String) :=
  match doneLoop activeStatusesPassedDays (activeStatusesReversedOf activeStatuses)
      (mapGet inactiveStatusesDates "Done") [] with
  | .error e => .error e
  | .ok r => .ok (stages.map (doneEmit activeStatuses r.2 inactiveStatusesDates))

/-- The stateful `stages.map` of `mapNotDoneIssue`, with the running cursor
(`activeStatusDate`) made explicit.  `format` on an undefined cursor is a
JavaScript `TypeError`, modeled as `Except.error`. -/
def mapNotDoneGo (activeStatuses : List String)
    (activeStatusesPassedDays : List (String × StagePassedDays))
    (inactiveStatusesDates : List (String × Moment)) :
    List String → Option Moment → Except String (List String)
  | [], _ => .ok []
  | stage :: rest, activeStatusDate =>
    let isDone := lowerStr stage == "done"
    if !(activeStatuses.contains stage) && !isDone then
      let date := mapGet inactiveStatusesDates stage
      (mapNotDoneGo activeStatuses activeStatusesPassedDays inactiveStatusesDates rest
        activeStatusDate).map (((date.map formatM).getD "") :: ·)
    else if isDone && (mapGet inactiveStatusesDates stage).isNone then
      (mapNotDoneGo activeStatuses activeStatusesPassedDays inactiveStatusesDates rest
        activeStatusDate).map ("" :: ·)
    else if isDone then
      match activeStatusDate with
      | none => .error "TypeError: cannot call format on undefined"
      | some c =>
        (mapNotDoneGo activeStatuses activeStatusesPassedDays inactiveStatusesDates rest
          activeStatusDate).map (formatM c :: ·)
    else
      match mapGet activeStatusesPassedDays stage with
      | none => .error "TypeError: cannot read didHappen of undefined"
      | some passedDaysResult =>
        if !passedDaysResult.didHappen then
          (mapNotDoneGo activeStatuses activeStatusesPassedDays inactiveStatusesDates rest
            activeStatusDate).map ("" :: ·)
        else
          match activeStatusDate with
          | none => .error "TypeError: cannot call format on undefined"
          | some c =>
            (mapNotDoneGo activeStatuses activeStatusesPassedDays inactiveStatusesDates rest
              (some (businessAddM c passedDaysResult.passedDays))).map (formatM c :: ·)

/-- `mapNotDoneIssue`: forward simulation from the anchor date. -/
def mapNotDoneIssue (stages : List String) (activeStatuses : List String)
    (activeStatusesPassedDays : List (String × StagePassedDays))
    (inactiveStatusesDates : List (String × Moment))
    (activeStatusDate : Option Moment) : Except String (List String) :=
  mapNotDoneGo activeStatuses activeStatusesPassedDays inactiveStatusesDates stages
    activeStatusDate

/-- `getStagingDates`: the orchestration function.  A JavaScript runtime
`TypeError` (reading a property of `undefined` / calling a method on
`undefined`) is the `Except.error` case; the source itself never raises a
labeled error. -/
def getStagingDates (issue : JiraApiIssue) (workflow : Workflow)
    (activeStatuses : List String) : Except String (List String) :=
  let stages := workflow.stages
  let sortedItems := processHistories issue
  let r := processActiveStatuses issue stages activeStatuses sortedItems
  let activeStatusesPassedDays := r.1
  let activeStatusDate := r.2
  let inactiveStatusesDates := processInactiveStates stages activeStatuses sortedItems
  match mapGet inactiveStatusesDates "Done" with
  | none =>
    mapNotDoneIssue stages activeStatuses activeStatusesPassedDays inactiveStatusesDates
      activeStatusDate
  | some _ => mapDoneIssue stages activeStatuses activeStatusesPassedDays inactiveStatusesDates

/-- The duration record computed for one stage by the episode reduce (it
does not depend on the anchor threaded through `processActiveStatuses`). -/
def stagePassedDaysOf (issue : JiraApiIssue) (sortedItems : List JiraComputedItem)
    (stage : String) : StagePassedDays :=
  (episodeFold issue
    (sortedItems.filter (fun item => item.fromString == some stage)) none).1

/-- The cursor evolution of one step of `mapNotDoneIssue`'s map, on the
non-crashing paths: only an active, non-`done` stage with `didHappen`
advances the cursor. -/
def notDoneStep (activeStatuses : List String)
    (activeStatusesPassedDays : List (String × StagePassedDays))
    (cursor : Option Moment) (stage : String) : Option Moment :=
  let isDone := lowerStr stage == "done"
  if !(activeStatuses.contains stage) && !isDone then cursor
  else if isDone then cursor
  else
    match mapGet activeStatusesPassedDays stage with
    | none => cursor
    | some passedDaysResult =>
      if !passedDaysResult.didHappen then cursor
      else
        match cursor with
        | none => cursor
        | some c => some (businessAddM c passedDaysResult.passedDays)

/-- The string emitted by one step of `mapNotDoneIssue`'s map given the
cursor at that step, on the non-crashing paths (on a crashing path no
vector is returned at all, so the value is immaterial; `""` is used). -/
def notDoneEmit (activeStatuses : List String)
    (activeStatusesPassedDays : List (String × StagePassedDays))
    (inactiveStatusesDates : List (String × Moment))
    (cursor : Option Moment) (stage : String) : String :=
  let isDone := lowerStr stage == "done"
  if !(activeStatuses.contains stage) && !isDone then
    ((mapGet inactiveStatusesDates stage).map formatM).getD ""
  else if isDone && (mapGet inactiveStatusesDates stage).isNone then ""
  else if isDone then
    match cursor with
    | some c => formatM c
    | none => ""
  else
    match mapGet activeStatusesPassedDays stage with
    | none => ""
    | some passedDaysResult =>
      if !passedDaysResult.didHappen then ""
      else
        match cursor with
        | some c => formatM c
        | none => ""

/-- The cursor of the forward simulation after processing a prefix of the
stage list. -/
def notDoneCursorAt (activeStatuses : List String)
    (activeStatusesPassedDays : List (String × StagePassedDays))
    (cursor0 : Option Moment) (pref : List String) : Option Moment :=
  pref.foldl (notDoneStep activeStatuses activeStatusesPassedDays) cursor0

/-- The date `getStagingDates` emits at position `i` for stage name
`stage`, expressed directly in terms of the derived side tables: the Done
branch emits a per-stage value, the forward branch emits a value of the
stage and of the cursor accumulated over the first `i` stages. -/
def stageEmitAt (issue : JiraApiIssue) (workflow : Workflow)
    (activeStatuses : List String) (i : Nat) (stage : String) : String :=
  let stages := workflow.stages
  let sortedItems := processHistories issue
  let r := processActiveStatuses issue stages activeStatuses sortedItems
  let inactiveStatusesDates := processInactiveStates stages activeStatuses sortedItems
  match mapGet inactiveStatusesDates "Done" with
  | none =>
    notDoneEmit activeStatuses r.1 inactiveStatusesDates
      (notDoneCursorAt activeStatuses r.1 r.2 (stages.take i)) stage
  | some _ =>
    match doneLoop r.1 (activeStatusesReversedOf activeStatuses)
        (mapGet inactiveStatusesDates "Done") [] with
    | .error _ => ""
    | .ok rr => doneEmit activeStatuses rr.2 inactiveStatusesDates stage

/-- `getStagingDates` with the issue argument threaded through and
returned: the source's only field write
(`item.previousCreated = issue.fields.created`) targets a
`JiraComputedItem` freshly constructed by `processHistories` (an object
literal copying the changelog data), never a record reachable from the
issue itself, so the issue component passes through every stage of the
pipeline unchanged. -/
def getStagingDatesTrack (issue : JiraApiIssue) (workflow : Workflow)
    (activeStatuses : List String) : JiraApiIssue × Except String (List String) :=
  let stages := workflow.stages
  let s1 : JiraApiIssue × List JiraComputedItem := (issue, processHistories issue)
  let s2 : JiraApiIssue × (List (String × StagePassedDays) × Option Moment) :=
    (s1.1, processActiveStatuses s1.1 stages activeStatuses s1.2)
  let inactiveStatusesDates := processInactiveStates stages activeStatuses s1.2
  (s2.1,
    match mapGet inactiveStatusesDates "Done" with
    | none =>
      mapNotDoneIssue stages activeStatuses s2.2.1 inactiveStatusesDates s2.2.2
    | some _ => mapDoneIssue stages activeStatuses s2.2.1 inactiveStatusesDates)

/-- Scenario A of the spec: created 2024-01-01, `Backlog -> In Progress` at
2024-01-02, `In Progress -> Done` at 2024-01-08. -/
def issueA : JiraApiIssue :=
  { fields := { created := "2024-01-01T09:00:00.000Z" }
    changelog := { histories :=
      [ { created := "2024-01-02T10:00:00.000Z"
          items := [ { field := "status", fromString := some "Backlog",
                       toString := some "In Progress" } ] }
      , { created := "2024-01-08T10:00:00.000Z"
          items := [ { field := "status", fromString := some "In Progress",
                       toString := some "Done" } ] } ] } }

/-- The workflow of Scenarios A and B. -/
def wfA : Workflow := { stages := ["Backlog", "In Progress", "Done"] }

/-- Scenario B of the spec: created 2024-01-02, a single transition
`Backlog -> In Progress` at 2024-01-03. -/
def issueB : JiraApiIssue :=
  { fields := { created := "2024-01-02T09:00:00.000Z" }
    changelog := { histories :=
      [ { created := "2024-01-03T10:00:00.000Z"
          items := [ { field := "status", fromString := some "Backlog",
                       toString := some "In Progress" } ] } ] } }

/-- A completed issue with two active stages `A` (1 business day) and `B`
(2 business days), used to show the Done-branch traversal order follows the
`activeStatuses` array, not the workflow. -/
def issueC : JiraApiIssue :=
  { fields := { created := "2024-01-01T08:00:00.000Z" }
    changelog := { histories :=
      [ { created := "2024-01-01T09:00:00.000Z"
          items := [ { field := "status", fromString := some "Start",
                       toString := some "A" } ] }
      , { created := "2024-01-02T09:00:00.000Z"
          items := [ { field := "status", fromString := some "A",
                       toString := some "B" } ] }
      , { created := "2024-01-04T09:00:00.000Z"
          items := [ { field := "status", fromString := some "B",
                       toString := some "Done" } ] } ] } }

/-- Workflow for `issueC`. -/
def wfC : Workflow := { stages := ["Start", "A", "B", "Done"] }

/-- An issue whose terminal transition enters the stage `"DONE"` (upper
case, so it does not select the backward branch) on a Saturday. -/
def issueD : JiraApiIssue :=
  { fields := { created := "2024-01-01T08:00:00.000Z" }
    changelog := { histories :=
      [ { created := "2024-01-02T09:00:00.000Z"
          items := [ { field := "status", fromString := some "Backlog",
                       toString := some "Work" } ] }
      , { created := "2024-01-06T09:00:00.000Z"
          items := [ { field := "status", fromString := some "Work",
                       toString := some "DONE" } ] } ] } }

/-- Workflow for `issueD`. -/
def wfD : Workflow := { stages := ["Backlog", "Work", "DONE"] }

/-- An issue entering a stage named `"done"` (lower case) with no episode
of any active stage, so no anchor date is ever set. -/
def issueE : JiraApiIssue :=
  { fields := { created := "2024-01-01T08:00:00.000Z" }
    changelog := { histories :=
      [ { created := "2024-01-03T09:00:00.000Z"
          items := [ { field := "status", fromString := some "Backlog",
                       toString := some "done" } ] } ] } }

/-- Workflow for `issueE`. -/
def wfE : Workflow := { stages := ["Backlog", "A", "done"] }

/-- An issue with an empty changelog. -/
def issueF : JiraApiIssue :=
  { fields := { created := "2024-01-01T08:00:00.000Z" }, changelog := { histories := [] } }

/-- An issue whose changelog has history entries but no status field
changes. -/
def issueH : JiraApiIssue :=
  { fields := { created := "2024-01-01T08:00:00.000Z" }
    changelog := { histories :=
      [ { created := "2024-01-02T09:00:00.000Z"
          items := [ { field := "assignee", fromString := some "x",
                       toString := some "y" } ] } ] } }

/-- C2: corrected.  On the Scenario A input the source returns
`["", "2024-01-02", "2024-01-08"]`: no transition ever *enters* `Backlog`
(the only transitions enter `In Progress` and `Done`), and
`processInactiveStates` records entry transitions only, so the `Backlog`
position is the empty string, not `"2024-01-02"` as the claim states. -/
theorem c2_counterexample :
    getStagingDates issueA wfA ["In Progress"]
        = Except.ok ["", "2024-01-02", "2024-01-08"] ∧
      (["", "2024-01-02", "2024-01-08"] : List String)
        ≠ ["2024-01-02", "2024-01-02", "2024-01-08"] :=
  ⟨rfl, by decide⟩

/-- C2 (amended): on the Scenario A input — workflow
`["Backlog", "In Progress", "Done"]`, active `["In Progress"]`, issue
created 2024-01-01, `Backlog -> In Progress` at 2024-01-02 and
`In Progress -> Done` at 2024-01-08 — `getStagingDates` returns exactly
`["", "2024-01-02", "2024-01-08"]`: `Backlog` is empty because no
transition enters it, `In Progress` is the Done date minus the 4 business
days spent in progress, `Done` is its own entry date. -/
theorem c2_scenarioA :
    getStagingDates issueA wfA ["In Progress"]
      = Except.ok ["", "2024-01-02", "2024-01-08"] :=
  rfl

/-- C3: corrected.  On the Scenario B input the source returns
`["", "", ""]`, not `["2024-01-03", "2024-01-03", ""]`: the issue never
transitioned *out of* `In Progress`, so its duration record has
`didHappen = false` and no anchor date is set, and no transition enters
`Backlog`, so that position is empty as well. -/
theorem c3_counterexample :
    getStagingDates issueB wfA ["In Progress"] = Except.ok ["", "", ""] ∧
      (["", "", ""] : List String) ≠ ["2024-01-03", "2024-01-03", ""] :=
  ⟨rfl, by decide⟩

/-- C3 (amended): on the Scenario B input — same workflow, issue created
2024-01-02, single transition `Backlog -> In Progress` at 2024-01-03 —
`getStagingDates` returns exactly `["", "", ""]`. -/
theorem c3_scenarioB :
    getStagingDates issueB wfA ["In Progress"] = Except.ok ["", "", ""] :=
  rfl

/-- C1: corrected.  In `mapDoneIssue` the source subtracts *before*
assigning (`activeStatusDate = activeStatusDate.businessSubtract(...)`
and then `activeStatusDates[status] = activeStatusDate`), so a stage's
emitted simulated date is the cursor *after* its own subtraction, not
before.  Concretely, with the Scenario A side tables the only active stage
`In Progress` (4 passed business days, cursor starting at the Done date
2024-01-08) emits `2024-01-02`, while the cursor before the subtraction
formats to `2024-01-08`. -/
theorem c1_counterexample :
    mapDoneIssue ["Backlog", "In Progress", "Done"] ["In Progress"]
        [("In Progress", ⟨true, 4⟩)] [("Done", momentOf "2024-01-08")]
      = Except.ok ["", "2024-01-02", "2024-01-08"] ∧
    formatM (momentOf "2024-01-08") = "2024-01-08" ∧
    ("2024-01-02" : String) ≠ "2024-01-08" :=
  ⟨rfl, rfl, by decide⟩

/-- C1 (amended): in the backward simulation, for an active stage whose
Stage Duration Record has `didHappen = true`, the cursor is first moved
backward by the stage's `passedBusinessDays` and the stage's emitted
simulated date is the cursor value *after* that subtraction; that same
post-subtraction value is the cursor consumed by the next (earlier) active
stage. -/
theorem c1_done_subtract_then_assign (pdMap : List (String × StagePassedDays))
    (status : String) (rest : List String) (pd : StagePassedDays) (c : Moment)
    (dates : List (String × Moment))
    (hpd : mapGet pdMap status = some pd) (hh : pd.didHappen = true) :
    doneLoop pdMap (status :: rest) (some c) dates
      = doneLoop pdMap rest (some (businessSubtractM c pd.passedDays))
          (mapAssign dates status (businessSubtractM c pd.passedDays)) := by
  simp [doneLoop, hpd, hh]

/-- Witness for `c1_done_subtract_then_assign` at the Scenario A side
tables. -/
theorem c1_done_subtract_then_assign_witness :
    mapGet [("In Progress", (⟨true, 4⟩ : StagePassedDays))] "In Progress"
        = some ⟨true, 4⟩ ∧
    doneLoop [("In Progress", ⟨true, 4⟩)] ["In Progress"]
        (some (momentOf "2024-01-08")) []
      = doneLoop [("In Progress", ⟨true, 4⟩)] []
          (some (businessSubtractM (momentOf "2024-01-08") 4))
          (mapAssign [] "In Progress" (businessSubtractM (momentOf "2024-01-08") 4)) :=
  ⟨rfl, c1_done_subtract_then_assign [("In Progress", ⟨true, 4⟩)] "In Progress" []
    ⟨true, 4⟩ (momentOf "2024-01-08") [] rfl rfl⟩

/-- C4: corrected.  The Done branch reverses the `activeStatuses` array as
supplied (`[...activeStatuses].reverse()`), not the workflow order: with
the same completed issue, calling `getStagingDates` with the active stages
listed as `["A", "B"]` versus `["B", "A"]` yields different date vectors,
and the traversal list for `["B", "A"]` differs from the
workflow-order-reversed active stages. -/
theorem c4_counterexample :
    getStagingDates issueC wfC ["A", "B"]
        = Except.ok ["", "2024-01-01", "2024-01-02", "2024-01-04"] ∧
    getStagingDates issueC wfC ["B", "A"]
        = Except.ok ["", "2024-01-03", "2024-01-01", "2024-01-04"] ∧
    (["", "2024-01-01", "2024-01-02", "2024-01-04"] : List String)
        ≠ ["", "2024-01-03", "2024-01-01", "2024-01-04"] ∧
    activeStatusesReversedOf ["B", "A"]
        ≠ (wfC.stages.filter (fun s => (["B", "A"] : List String).contains s)).reverse :=
  ⟨rfl, rfl, by decide, by decide⟩

/-- C4 (amended): the Done branch visits active stages in the reverse of
the `activeStatuses` array's own order; this equals the reverse of the
workflow's ordering of the active stages exactly when `activeStatuses`
lists them in workflow order (which the repository's callers do). -/
theorem c4_reverse_of_active_array (stages activeStatuses : List String)
    (h : activeStatuses = stages.filter (fun s => activeStatuses.contains s)) :
    activeStatusesReversedOf activeStatuses
      = (stages.filter (fun s => activeStatuses.contains s)).reverse := by
  simp only [activeStatusesReversedOf]
  rw [← h]

/-- Witness for `c4_reverse_of_active_array` on the Scenario A workflow. -/
theorem c4_reverse_of_active_array_witness :
    (["A", "B"] : List String)
        = (["A", "B", "Done"] : List String).filter
            (fun s => (["A", "B"] : List String).contains s) ∧
    activeStatusesReversedOf ["A", "B"]
        = ((["A", "B", "Done"] : List String).filter
            (fun s => (["A", "B"] : List String).contains s)).reverse :=
  ⟨by decide, c4_reverse_of_active_array _ _ (by decide)⟩

/-- C7: code bug.  The source raises no labeled error at all: an active
status that is not a workflow stage is silently ignored in the forward
branch, which returns a date vector (here `["", ""]`) instead of failing
fast with an "invalid input" error; in the Done branch the same violation
surfaces only as an unlabeled runtime `TypeError`, and malformed
timestamps are never detected (they flow through as invalid moments). -/
theorem c7_no_invalid_input_error :
    (["Backlog", "Done"] : List String).contains "Bogus" = false ∧
    getStagingDates issueF { stages := ["Backlog", "Done"] } ["Bogus"]
      = Except.ok ["", ""] :=
  ⟨by decide, rfl⟩

/-- C10: corrected.  Even when every element of `activeStatuses` is a
workflow stage, `getStagingDates` is not total: for `issueE` (created
2024-01-01, single transition `Backlog -> done` at 2024-01-03) with
workflow `["Backlog", "A", "done"]` and `activeStatuses = ["A"]`, the
forward branch is selected (no exact-`"Done"` date exists), the stage
`"done"` passes the lowercase `isDone` test and has a recorded entry date,
and the source calls `format` on the undefined anchor cursor. -/
theorem c10_counterexample :
    (∀ s ∈ (["A"] : List String), s ∈ wfE.stages) ∧
    getStagingDates issueE wfE ["A"]
      = Except.error "TypeError: cannot call format on undefined" :=
  ⟨by decide, rfl⟩

/-- C5: corrected.  Inactive-stage directness fails in the forward branch
for a stage whose lowercased name is `"done"`: for `issueD` the inactive
stage `"DONE"` is entered exactly once, on Saturday 2024-01-06, but the
output at its position is the simulated cursor `2024-01-08` (the anchor
2024-01-02 advanced by the 4 passed business days of `Work`), not the
entry date. -/
theorem c5_counterexample :
    (["Work"] : List String).contains "DONE" = false ∧
    getStagingDates issueD wfD ["Work"]
        = Except.ok ["", "2024-01-02", "2024-01-08"] ∧
    (∀ u ∈ processHistories issueD, u.toString = some "DONE" →
      formatM (momentOf (splitT u.created)) = "2024-01-06") ∧
    ("2024-01-08" : String) ≠ "2024-01-06" :=
  ⟨by decide, rfl, by decide, by decide⟩

/-- Helper: the JavaScript string order is irreflexive. -/
theorem strLtB_irrefl : ∀ (a : List Char), strLtB a a = false
  | [] => rfl
  | c :: cs => by simp [strLtB, strLtB_irrefl cs]

/-- Helper: the JavaScript string order is asymmetric. -/
theorem strLtB_asymm : ∀ (a b : List Char), strLtB a b = true → strLtB b a = false
  | [], [] => by simp [strLtB]
  | [], _ :: _ => by simp [strLtB]
  | _ :: _, [] => by simp [strLtB]
  | a :: as, b :: bs => by
    simp only [strLtB]
    rcases lt_trichotomy a b with h | h | h
    · simp [h, lt_asymm h]
    · subst h
      simpa [lt_irrefl] using strLtB_asymm as bs
    · simp [h, lt_asymm h]

/-- Helper: the non-strict JavaScript string order is transitive. -/
theorem strLtB_false_trans : ∀ (a b c : List Char),
    strLtB b a = false → strLtB c b = false → strLtB c a = false := by
  intro a
  induction a with
  | nil => intro b c h1 h2; cases c <;> rfl
  | cons a0 as ih =>
    intro b c h1 h2
    cases b with
    | nil => simp [strLtB] at h1
    | cons b0 bs =>
      cases c with
      | nil => simp [strLtB] at h2
      | cons c0 cs =>
        simp only [strLtB] at h1 h2 ⊢
        by_cases hba : b0 < a0
        · simp [hba] at h1
        · by_cases hcb : c0 < b0
          · simp [hcb] at h2
          · have hac : ¬ c0 < a0 :=
              not_lt.mpr (le_trans (not_lt.mp hba) (not_lt.mp hcb))
            by_cases hax : a0 < c0
            · simp [hac, hax]
            · have hceq : a0 = c0 := le_antisymm (not_lt.mp hac) (not_lt.mp hax)
              subst hceq
              have hbeq : a0 = b0 := le_antisymm (not_lt.mp hba) (not_lt.mp hcb)
              subst hbeq
              simp [lt_irrefl] at h1 h2 ⊢
              exact ih bs cs h1 h2

/-- Helper: membership in an insertion. -/
theorem mem_insertByCreated {x a : JiraComputedItem} :
    ∀ {l : List JiraComputedItem}, a ∈ insertByCreated x l ↔ a = x ∨ a ∈ l
  | [] => by simp [insertByCreated]
  | y :: ys => by
    simp only [insertByCreated]
    split
    · simp only [List.mem_cons, mem_insertByCreated (l := ys)]
      tauto
    · simp only [List.mem_cons]

/-- Helper: insertion preserves sortedness by `created`. -/
theorem pairwise_insertByCreated {x : JiraComputedItem} :
    ∀ {l : List JiraComputedItem},
      l.Pairwise (fun a b => strLtB b.created.data a.created.data = false) →
      (insertByCreated x l).Pairwise
        (fun a b => strLtB b.created.data a.created.data = false)
  | [], _ => by simp [insertByCreated]
  | y :: ys, h => by
    rw [List.pairwise_cons] at h
    obtain ⟨hy, hys⟩ := h
    simp only [insertByCreated]
    split
    case isTrue hc =>
      rw [List.pairwise_cons]
      refine ⟨fun z hz => ?_, pairwise_insertByCreated hys⟩
      rcases mem_insertByCreated.mp hz with rfl | hz
      · exact strLtB_asymm _ _ hc
      · exact hy z hz
    case isFalse hc =>
      rw [List.pairwise_cons]
      rw [Bool.not_eq_true] at hc
      refine ⟨fun z hz => ?_, List.pairwise_cons.mpr ⟨hy, hys⟩⟩
      rcases List.mem_cons.mp hz with rfl | hz
      · exact hc
      · exact strLtB_false_trans x.created.data y.created.data z.created.data hc (hy z hz)

/-- Helper: the sort used by `processHistories` produces a list that is
non-decreasing in `created`. -/
theorem pairwise_sortByCreated :
    ∀ (l : List JiraComputedItem),
      (sortByCreated l).Pairwise (fun a b => strLtB b.created.data a.created.data = false)
  | [] => by simp [sortByCreated]
  | x :: xs => by
    have h := pairwise_sortByCreated xs
    simpa [sortByCreated] using pairwise_insertByCreated (x := x) h

/-- Helper: the `previousCreated` annotation pass does not change any
item's `created` timestamp. -/
theorem annotatePrevious_map_created :
    ∀ (l : List JiraComputedItem) (prev : String),
      (annotatePrevious prev l).map (fun item => item.created)
        = l.map (fun item => item.created)
  | [], _ => rfl
  | item :: rest, prev => by
    simp only [annotatePrevious, List.map_cons, annotatePrevious_map_created rest]
    split <;> rfl

/-- Helper: the transition sequence produced by `processHistories` is
non-decreasing in `created`. -/
theorem processHistories_sorted (issue : JiraApiIssue) :
    (processHistories issue).Pairwise
      (fun a b => strLtB b.created.data a.created.data = false) := by
  simp only [processHistories]
  rw [← List.pairwise_map (f := fun item : JiraComputedItem => item.created)
    (R := fun a b => strLtB b.data a.data = false)]
  rw [annotatePrevious_map_created]
  rw [List.pairwise_map]
  exact pairwise_sortByCreated _

/-- Helper: in a sorted list, the first element satisfying a predicate is
minimal among all elements satisfying it. -/
theorem find?_min_of_pairwise {α : Type} {R : α → α → Prop} {p : α → Bool} :
    ∀ {l : List α} {t : α}, l.Pairwise R → l.find? p = some t → R t t →
      ∀ u ∈ l, p u = true → R t u := by
  intro l
  induction l with
  | nil => intro t _ hf; simp at hf
  | cons a l ih =>
    intro t hp hf hrefl u hu hpu
    rw [List.pairwise_cons] at hp
    by_cases hpa : p a = true
    · rw [List.find?_cons_of_pos _ hpa] at hf
      injection hf with hf
      subst hf
      rcases List.mem_cons.mp hu with rfl | hu
      · exact hrefl
      · exact hp.1 u hu
    · rw [List.find?_cons_of_neg _ (by simpa using hpa)] at hf
      rcases List.mem_cons.mp hu with rfl | hu
      · exact absurd hpu hpa
      · exact ih hp.2 hf hrefl u hu hpu

/-- Helper: reading back the key just assigned. -/
theorem mapGet_mapAssign_self {α : Type} (m : List (String × α)) (k : String) (v : α) :
    mapGet (mapAssign m k v) k = some v := by
  simp [mapGet, mapAssign]

/-- Helper: assigning one key does not change another key's value. -/
theorem mapGet_mapAssign_ne {α : Type} (m : List (String × α)) {k k' : String} (v : α)
    (h : k ≠ k') : mapGet (mapAssign m k v) k' = mapGet m k' := by
  simp only [mapGet, mapAssign]
  rw [List.find?_cons_of_neg]
  simpa using h

/-- Helper: effect of one inactive-stage iteration on a lookup. -/
theorem inactiveStageStep_lookup (sortedItems : List JiraComputedItem)
    (d0 : List (String × Moment)) (a s : String) :
    mapGet (inactiveStageStep sortedItems d0 a) s
      = if a = s then
          (match sortedItems.find? (fun item => item.toString == some s) with
           | some it => some (momentOf (splitT it.created))
           | none => mapGet d0 s)
        else mapGet d0 s := by
  by_cases h : a = s
  · subst h
    simp only [inactiveStageStep, if_pos rfl]
    cases hf : sortedItems.find? (fun item => item.toString == some a) with
    | none => rfl
    | some it => simp [mapGet_mapAssign_self]
  · simp only [inactiveStageStep, if_neg h]
    cases hf : sortedItems.find? (fun item => item.toString == some a) with
    | none => rfl
    | some it => simp [mapGet_mapAssign_ne _ _ h]

/-- Helper: lookup characterization for the inactive-stage fold. -/
theorem inactiveFold_lookup (sortedItems : List JiraComputedItem) :
    ∀ (l : List String) (d0 : List (String × Moment)) (s : String),
      mapGet (l.foldl (inactiveStageStep sortedItems) d0) s
        = if s ∈ l then
            (match sortedItems.find? (fun item => item.toString == some s) with
             | some it => some (momentOf (splitT it.created))
             | none => mapGet d0 s)
          else mapGet d0 s := by
  intro l
  induction l with
  | nil => intro d0 s; simp
  | cons a l ih =>
    intro d0 s
    rw [List.foldl_cons, ih]
    by_cases hmem : s ∈ l
    · simp only [hmem, if_true, List.mem_cons, or_true]
      cases hf : sortedItems.find? (fun item => item.toString == some s) with
      | some it => rfl
      | none =>
        rw [inactiveStageStep_lookup]
        by_cases h : a = s
        · subst h; simp [hf]
        · simp [h]
    · simp only [hmem, if_false, List.mem_cons, or_false]
      rw [inactiveStageStep_lookup]
      by_cases h : a = s
      · subst h; simp
      · have h2 : ¬ s = a := fun hs => h hs.symm
        simp [h, h2]

/-- Helper: the duration component of the episode reduce does not depend
on the anchor it is started with. -/
theorem episodeStep_fst_anchor (issue : JiraApiIssue) :
    ∀ (items : List JiraComputedItem) (acc : StagePassedDays) (a b : Option Moment),
      (items.foldl (episodeStep issue) (acc, a)).1
        = (items.foldl (episodeStep issue) (acc, b)).1
  | [], _, _, _ => rfl
  | it :: items, acc, a, b => by
    rw [List.foldl_cons, List.foldl_cons]
    simp only [episodeStep]
    exact episodeStep_fst_anchor issue items _ _ _

/-- Helper: effect of one active-stage iteration on a duration lookup. -/
theorem activeStageStep_fst_lookup (issue : JiraApiIssue)
    (sortedItems : List JiraComputedItem)
    (acc : List (String × StagePassedDays) × Option Moment) (a s : String) :
    mapGet (activeStageStep issue sortedItems acc a).1 s
      = if a = s then some (stagePassedDaysOf issue sortedItems s)
        else mapGet acc.1 s := by
  by_cases h : a = s
  · subst h
    simp only [activeStageStep, if_pos rfl, mapGet_mapAssign_self]
    rw [stagePassedDaysOf, episodeFold, episodeFold]
    rw [episodeStep_fst_anchor issue _ _ acc.2 none]
    simp
  · simp only [activeStageStep, if_neg h]
    exact mapGet_mapAssign_ne _ _ h

/-- Helper: lookup characterization for the active-stage fold. -/
theorem pdFold_lookup (issue : JiraApiIssue) (sortedItems : List JiraComputedItem) :
    ∀ (l : List String) (acc : List (String × StagePassedDays) × Option Moment)
      (s : String),
      mapGet ((l.foldl (activeStageStep issue sortedItems) acc)).1 s
        = if s ∈ l then some (stagePassedDaysOf issue sortedItems s)
          else mapGet acc.1 s := by
  intro l
  induction l with
  | nil => intro acc s; simp
  | cons a l ih =>
    intro acc s
    rw [List.foldl_cons, ih]
    by_cases hmem : s ∈ l
    · simp [hmem]
    · simp only [hmem, if_false, List.mem_cons, or_false]
      rw [activeStageStep_fst_lookup]
      by_cases h : a = s
      · subst h; simp
      · have h2 : ¬ s = a := fun hs => h hs.symm
        simp [h, h2]

/-- Helper: every active stage that is a workflow stage has a duration
record, and its value is the stage's episode reduce. -/
theorem processActiveStatuses_lookup (issue : JiraApiIssue) (stages : List String)
    (activeStatuses : List String) (sortedItems : List JiraComputedItem)
    (s : String) (hs : s ∈ stages) (ha : activeStatuses.contains s = true) :
    mapGet (processActiveStatuses issue stages activeStatuses sortedItems).1 s
      = some (stagePassedDaysOf issue sortedItems s) := by
  rw [processActiveStatuses, pdFold_lookup]
  rw [if_pos (List.mem_filter.mpr ⟨hs, ha⟩)]

/-- Helper: an inactive workflow stage's recorded date is the date of the
first transition entering it in the sorted transition sequence. -/
theorem processInactiveStates_lookup (stages : List String)
    (activeStatuses : List String) (sortedItems : List JiraComputedItem)
    (s : String) (hs : s ∈ stages) (ha : activeStatuses.contains s = false) :
    mapGet (processInactiveStates stages activeStatuses sortedItems) s
      = (sortedItems.find? (fun item => item.toString == some s)).map
          (fun it => momentOf (splitT it.created)) := by
  rw [processInactiveStates, inactiveFold_lookup]
  rw [if_pos (List.mem_filter.mpr ⟨hs, by rw [ha]; rfl⟩)]
  cases sortedItems.find? (fun item => item.toString == some s) with
  | none => simp [mapGet]
  | some it => rfl

/-- Helper: `getStagingDates` unfolded to its branch selection. -/
theorem getStagingDates_eq (issue : JiraApiIssue) (workflow : Workflow)
    (activeStatuses : List String) :
    getStagingDates issue workflow activeStatuses
      = match mapGet (processInactiveStates workflow.stages activeStatuses
            (processHistories issue)) "Done" with
        | none =>
          mapNotDoneIssue workflow.stages activeStatuses
            (processActiveStatuses issue workflow.stages activeStatuses
              (processHistories issue)).1
            (processInactiveStates workflow.stages activeStatuses (processHistories issue))
            (processActiveStatuses issue workflow.stages activeStatuses
              (processHistories issue)).2
        | some _ =>
          mapDoneIssue workflow.stages activeStatuses
            (processActiveStatuses issue workflow.stages activeStatuses
              (processHistories issue)).1
            (processInactiveStates workflow.stages activeStatuses (processHistories issue)) :=
  rfl

/-- Helper: the Done-branch loop succeeds whenever every visited status
has a duration record and the starting cursor is defined. -/
theorem doneLoop_ok (pdMap : List (String × StagePassedDays)) :
    ∀ (l : List String) (c : Moment) (dates : List (String × Moment)),
      (∀ s ∈ l, (mapGet pdMap s).isSome = true) →
      ∃ r, doneLoop pdMap l (some c) dates = Except.ok r := by
  intro l
  induction l with
  | nil => intro c dates _; exact ⟨_, rfl⟩
  | cons s l ih =>
    intro c dates h
    have hs := h s (List.mem_cons_self s l)
    cases hpd : mapGet pdMap s with
    | none => rw [hpd] at hs; simp at hs
    | some pd =>
      simp only [doneLoop, hpd]
      by_cases hdh : pd.didHappen = true
      · simp only [hdh, Bool.not_true, Bool.false_eq_true, if_false]
        exact ih _ _ (fun u hu => h u (List.mem_cons_of_mem _ hu))
      · rw [Bool.not_eq_true] at hdh
        simp only [hdh, Bool.not_false, if_true]
        exact ih _ _ (fun u hu => h u (List.mem_cons_of_mem _ hu))

/-- Helper: when `mapNotDoneIssue`'s traversal returns a vector, the vector
has one entry per stage, and the entry at position `i` is the stage's
emission under the cursor accumulated over the preceding stages. -/
theorem mapNotDoneGo_ok_get (activeStatuses : List String)
    (pdMap : List (String × StagePassedDays)) (dates : List (String × Moment)) :
    ∀ (l : List String) (cursor : Option Moment) (out : List String),
      mapNotDoneGo activeStatuses pdMap dates l cursor = Except.ok out →
      out.length = l.length ∧
      ∀ (i : Nat) (stage : String), l.get? i = some stage →
        out.get? i = some (notDoneEmit activeStatuses pdMap dates
          (notDoneCursorAt activeStatuses pdMap cursor (l.take i)) stage) := by
  intro l
  induction l with
  | nil =>
    intro cursor out h
    simp only [mapNotDoneGo] at h
    cases h
    exact ⟨rfl, fun i stage hi => by simp at hi⟩
  | cons stage rest ih =>
    intro cursor out h
    simp only [mapNotDoneGo] at h
    obtain ⟨v, c2, hmap, hemit, hstep⟩ :
        ∃ v c2,
          (mapNotDoneGo activeStatuses pdMap dates rest c2).map (v :: ·) = Except.ok out
          ∧ notDoneEmit activeStatuses pdMap dates cursor stage = v
          ∧ notDoneStep activeStatuses pdMap cursor stage = c2 := by
      by_cases hd : (lowerStr stage == "done") = true
      · cases hmg : mapGet dates stage with
        | none =>
          exact ⟨"", cursor, by simpa [hd, hmg] using h,
            by simp [notDoneEmit, hd, hmg], by simp [notDoneStep, hd]⟩
        | some dm =>
          cases cu : cursor with
          | none => rw [cu] at h; simp [hd, hmg] at h
          | some c =>
            rw [cu] at h
            exact ⟨formatM c, some c, by simpa [hd, hmg] using h,
              by simp [notDoneEmit, hd, hmg], by simp [notDoneStep, hd]⟩
      · by_cases hc : activeStatuses.contains stage = true
        · have hcm : stage ∈ activeStatuses := by simpa using hc
          cases hpd : mapGet pdMap stage with
          | none => rw [hpd] at h; simp [hcm, hd] at h
          | some pd =>
            by_cases hdh : pd.didHappen = true
            · cases cu : cursor with
              | none => rw [cu] at h; simp [hcm, hd, hpd, hdh] at h
              | some c =>
                rw [cu] at h
                exact ⟨formatM c, some (businessAddM c pd.passedDays),
                  by simpa [hcm, hd, hpd, hdh] using h,
                  by simp [notDoneEmit, hcm, hd, hpd, hdh],
                  by simp [notDoneStep, hcm, hd, hpd, hdh]⟩
            · rw [Bool.not_eq_true] at hdh
              exact ⟨"", cursor, by simpa [hcm, hd, hpd, hdh] using h,
                by simp [notDoneEmit, hcm, hd, hpd, hdh],
                by simp [notDoneStep, hcm, hd, hpd, hdh]⟩
        · have hcm : stage ∉ activeStatuses := by simpa using hc
          exact ⟨((mapGet dates stage).map formatM).getD "", cursor,
            by simpa [hcm, hd] using h,
            by simp [notDoneEmit, hcm, hd], by simp [notDoneStep, hcm, hd]⟩
    cases hrec : mapNotDoneGo activeStatuses pdMap dates rest c2 with
    | error e => rw [hrec] at hmap; simp [Except.map] at hmap
    | ok tail =>
      rw [hrec] at hmap
      simp only [Except.map] at hmap
      cases hmap
      have hih := ih c2 tail hrec
      refine ⟨by simp [hih.1], fun i stage2 hi => ?_⟩
      cases i with
      | zero =>
        simp only [List.get?] at hi
        cases hi
        simp only [List.get?, List.take, notDoneCursorAt, List.foldl_nil]
        rw [hemit]
      | succ i =>
        simp only [List.get?] at hi ⊢
        rw [hih.2 i stage2 hi]
        simp only [List.take, notDoneCursorAt, List.foldl_cons]
        rw [hstep]

/-- Helper: an issue with no status field changes yields an empty
transition sequence. -/
theorem processHistories_nil (issue : JiraApiIssue)
    (h : ∀ hist ∈ issue.changelog.histories, ∀ item ∈ hist.items,
      item.field ≠ "status") :
    processHistories issue = [] := by
  simp only [processHistories]
  have hfl : ((issue.changelog.histories.map (fun history =>
      (history.created,
        history.items.filter (fun historyItem => historyItem.field == "status"))))
      |>.filter (fun entry => entry.2.length > 0)) = [] := by
    rw [List.filter_eq_nil_iff]
    intro a ha
    obtain ⟨hist, hh, rfl⟩ := List.mem_map.mp ha
    have hemp : hist.items.filter (fun historyItem => historyItem.field == "status") = [] := by
      rw [List.filter_eq_nil_iff]
      intro it hit
      simpa using h hist hh it hit
    simp [hemp]
  rw [hfl]
  rfl

/-- Helper: with no transitions the active-stage fold never sets the
anchor. -/
theorem pdFold_anchor_none (issue : JiraApiIssue) :
    ∀ (l : List String) (m : List (String × StagePassedDays)),
      ((l.foldl (activeStageStep issue []) (m, none)).2) = none
  | [], _ => rfl
  | a :: l, m => by
    rw [List.foldl_cons]
    exact pdFold_anchor_none issue l (mapAssign m a ⟨false, 0⟩)

/-- Helper: with no transitions the anchor date stays undefined. -/
theorem processActiveStatuses_nil_anchor (issue : JiraApiIssue)
    (stages activeStatuses : List String) :
    (processActiveStatuses issue stages activeStatuses []).2 = none := by
  rw [processActiveStatuses]
  exact pdFold_anchor_none issue _ []

/-- Helper: with no transitions the inactive-stage fold records nothing. -/
theorem inactiveFold_nil_items : ∀ (l : List String) (d : List (String × Moment)),
    l.foldl (inactiveStageStep []) d = d
  | [], _ => rfl
  | a :: l, d => by
    rw [List.foldl_cons]
    exact inactiveFold_nil_items l d

/-- Helper: with no transitions no inactive date is recorded. -/
theorem processInactiveStates_nil_items (stages activeStatuses : List String) :
    processInactiveStates stages activeStatuses [] = [] := by
  rw [processInactiveStates]
  exact inactiveFold_nil_items _ []

/-- Helper: the forward traversal emits only empty strings when there are
no recorded dates and every relevant duration record is the zero record. -/
theorem mapNotDoneGo_all_empty (activeStatuses : List String)
    (pdMap : List (String × StagePassedDays)) :
    ∀ (l : List String),
      (∀ s ∈ l, activeStatuses.contains s = true → (lowerStr s == "done") = false →
        mapGet pdMap s = some ⟨false, 0⟩) →
      mapNotDoneGo activeStatuses pdMap [] l none
        = Except.ok (l.map (fun _ => "")) := by
  intro l
  induction l with
  | nil => intro _; rfl
  | cons stage rest ih =>
    intro h
    simp only [mapNotDoneGo]
    have hrec := ih (fun s hs => h s (List.mem_cons_of_mem _ hs))
    by_cases hd : (lowerStr stage == "done") = true
    · simp [hd, mapGet, hrec, Except.map]
    · by_cases hc : activeStatuses.contains stage = true
      · have hcm : stage ∈ activeStatuses := by simpa using hc
        have hpd := h stage (List.mem_cons_self _ _) hc (by simpa using hd)
        simp [hcm, hd, hpd, hrec, Except.map]
      · have hcm : stage ∉ activeStatuses := by simpa using hc
        simp [hcm, hd, hrec, mapGet, Except.map]

/-- C5 (amended): for every inactive workflow stage with at least one
entering transition, the output element at that stage's position equals
the calendar date (time-of-day discarded) of the first entering transition
in time order — in the backward (Done) branch unconditionally (in
particular for a stage literally named `"Done"`, which always selects that
branch when it has a recorded date), and in the forward branch provided
the stage's lowercased name is not `"done"` (a lowercase-`done` alias with
a recorded date is emitted as the simulated cursor instead, per the
counterexample). -/
theorem c5_inactive_directness (issue : JiraApiIssue) (workflow : Workflow)
    (activeStatuses : List String) (stage : String) (i : Nat) (out : List String)
    (hstage : workflow.stages.get? i = some stage)
    (hinact : activeStatuses.contains stage = false)
    (hout : getStagingDates issue workflow activeStatuses = Except.ok out)
    (hbranch : mapGet (processInactiveStates workflow.stages activeStatuses
        (processHistories issue)) "Done" = none → lowerStr stage ≠ "done")
    (hent : ∃ u ∈ processHistories issue, u.toString = some stage) :
    ∃ t ∈ processHistories issue, t.toString = some stage ∧
      (∀ u ∈ processHistories issue, u.toString = some stage →
        strLtB u.created.data t.created.data = false) ∧
      out.get? i = some (formatM (momentOf (splitT t.created))) := by
  obtain ⟨u0, hu0, hu0p⟩ := hent
  have hfs : ((processHistories issue).find?
      (fun item => item.toString == some stage)).isSome = true := by
    rw [List.find?_isSome]
    exact ⟨u0, hu0, by simpa using hu0p⟩
  obtain ⟨t, hfind⟩ := Option.isSome_iff_exists.mp hfs
  have htmem : t ∈ processHistories issue := List.mem_of_find?_eq_some hfind
  have htp : t.toString = some stage := by
    have := List.find?_some hfind
    simpa using this
  have hmin : ∀ u ∈ processHistories issue, u.toString = some stage →
      strLtB u.created.data t.created.data = false := by
    intro u hu hup
    exact find?_min_of_pairwise (processHistories_sorted issue) hfind
      (strLtB_irrefl _) u hu (by simpa using hup)
  refine ⟨t, htmem, htp, hmin, ?_⟩
  have hsmem : stage ∈ workflow.stages := List.get?_mem hstage
  have hdate : mapGet (processInactiveStates workflow.stages activeStatuses
      (processHistories issue)) stage = some (momentOf (splitT t.created)) := by
    rw [processInactiveStates_lookup _ _ _ _ hsmem hinact, hfind]
    rfl
  have hinm : stage ∉ activeStatuses := by simpa using hinact
  rw [getStagingDates_eq] at hout
  cases hdone : mapGet (processInactiveStates workflow.stages activeStatuses
      (processHistories issue)) "Done" with
  | some dm =>
    rw [hdone] at hout
    simp only [mapDoneIssue] at hout
    rw [hdone] at hout
    cases hdl : doneLoop (processActiveStatuses issue workflow.stages activeStatuses
        (processHistories issue)).1 (activeStatusesReversedOf activeStatuses)
        (some dm) [] with
    | error e => rw [hdl] at hout; cases hout
    | ok rr =>
      rw [hdl] at hout
      cases hout
      rw [List.get?_map, hstage]
      simp only [Option.map_some']
      simp [doneEmit, hinm, hdate]
  | none =>
    have hlow : lowerStr stage ≠ "done" := hbranch hdone
    have hlowb : (lowerStr stage == "done") = false := by simpa using hlow
    rw [hdone] at hout
    simp only [mapNotDoneIssue] at hout
    have hg := mapNotDoneGo_ok_get _ _ _ _ _ _ hout
    rw [hg.2 i stage hstage]
    simp [notDoneEmit, hinm, hlowb, hdate]

/-- Witness for `c5_inactive_directness` at Scenario A, stage `"Done"`
(position 2). -/
theorem c5_inactive_directness_witness :
    wfA.stages.get? 2 = some "Done" ∧
    ∃ t ∈ processHistories issueA, t.toString = some "Done" ∧
      (∀ u ∈ processHistories issueA, u.toString = some "Done" →
        strLtB u.created.data t.created.data = false) ∧
      (["", "2024-01-02", "2024-01-08"] : List String).get? 2
        = some (formatM (momentOf (splitT t.created))) :=
  ⟨rfl, c5_inactive_directness issueA wfA ["In Progress"] "Done" 2
    ["", "2024-01-02", "2024-01-08"] rfl (by decide) rfl (by decide) (by decide)⟩

/-- C6: confirmed.  Whenever `getStagingDates` returns a vector, its
length equals the number of workflow stages, and the element at every
position `i` is the date emitted for workflow stage `i` (the Done branch's
per-stage emission, or the forward branch's emission under the cursor
accumulated over the first `i` stages). -/
theorem c6_length_and_position (issue : JiraApiIssue) (workflow : Workflow)
    (activeStatuses : List String) (out : List String)
    (h : getStagingDates issue workflow activeStatuses = Except.ok out) :
    out.length = workflow.stages.length ∧
    ∀ (i : Nat) (stage : String), workflow.stages.get? i = some stage →
      out.get? i = some (stageEmitAt issue workflow activeStatuses i stage) := by
  rw [getStagingDates_eq] at h
  cases hdone : mapGet (processInactiveStates workflow.stages activeStatuses
      (processHistories issue)) "Done" with
  | none =>
    rw [hdone] at h
    simp only [mapNotDoneIssue] at h
    have hg := mapNotDoneGo_ok_get _ _ _ _ _ _ h
    refine ⟨hg.1, fun i stage hi => ?_⟩
    rw [hg.2 i stage hi]
    simp only [stageEmitAt, hdone]
  | some dm =>
    rw [hdone] at h
    simp only [mapDoneIssue] at h
    rw [hdone] at h
    cases hdl : doneLoop (processActiveStatuses issue workflow.stages activeStatuses
        (processHistories issue)).1 (activeStatusesReversedOf activeStatuses)
        (some dm) [] with
    | error e => rw [hdl] at h; cases h
    | ok rr =>
      rw [hdl] at h
      cases h
      constructor
      · simp
      · intro i stage hi
        rw [List.get?_map, hi]
        simp only [Option.map_some']
        simp only [stageEmitAt, hdone, hdl]

/-- Witness for `c6_length_and_position` at Scenario A. -/
theorem c6_length_and_position_witness :
    getStagingDates issueA wfA ["In Progress"]
        = Except.ok ["", "2024-01-02", "2024-01-08"] ∧
    (["", "2024-01-02", "2024-01-08"] : List String).length = wfA.stages.length ∧
    ∀ (i : Nat) (stage : String), wfA.stages.get? i = some stage →
      (["", "2024-01-02", "2024-01-08"] : List String).get? i
        = some (stageEmitAt issueA wfA ["In Progress"] i stage) :=
  ⟨rfl,
    (c6_length_and_position issueA wfA ["In Progress"]
      ["", "2024-01-02", "2024-01-08"] rfl).1,
    (c6_length_and_position issueA wfA ["In Progress"]
      ["", "2024-01-02", "2024-01-08"] rfl).2⟩

/-- C8: confirmed.  For every issue whose changelog contains no status
field changes (in particular an empty changelog), `getStagingDates`
raises no error and returns a vector of empty strings, one per workflow
stage. -/
theorem c8_no_status_history (issue : JiraApiIssue) (workflow : Workflow)
    (activeStatuses : List String)
    (h : ∀ hist ∈ issue.changelog.histories, ∀ item ∈ hist.items,
      item.field ≠ "status") :
    getStagingDates issue workflow activeStatuses
      = Except.ok (workflow.stages.map (fun _ => "")) := by
  have hph := processHistories_nil issue h
  rw [getStagingDates_eq, hph, processInactiveStates_nil_items]
  have hnone : mapGet ([] : List (String × Moment)) "Done" = none := rfl
  rw [hnone]
  simp only [mapNotDoneIssue]
  rw [processActiveStatuses_nil_anchor]
  exact mapNotDoneGo_all_empty activeStatuses _ workflow.stages
    (fun s hs hc _ => by
      rw [processActiveStatuses_lookup issue workflow.stages activeStatuses [] s hs hc]
      rfl)

/-- Witness for `c8_no_status_history` on an issue whose only history
entry changes the assignee field. -/
theorem c8_no_status_history_witness :
    (∀ hist ∈ issueH.changelog.histories, ∀ item ∈ hist.items,
      item.field ≠ "status") ∧
    getStagingDates issueH wfA ["In Progress"]
      = Except.ok (wfA.stages.map (fun _ => "")) :=
  ⟨by decide, c8_no_status_history issueH wfA ["In Progress"] (by decide)⟩

/-- C9: confirmed.  The pipeline never writes to the issue: the threaded
variant returns the issue unchanged alongside the very result of
`getStagingDates`.  In the source the only field write
(`item.previousCreated = issue.fields.created`, and the `previousCreated`
annotation pass in `processHistories`) targets `JiraComputedItem` records
freshly built by object literals from the changelog data, never a record
reachable from the issue, which is why the embedding of the pipeline is a
pure function of the issue value. -/
theorem c9_issue_not_mutated (issue : JiraApiIssue) (workflow : Workflow)
    (activeStatuses : List String) :
    (getStagingDatesTrack issue workflow activeStatuses).1 = issue ∧
    (getStagingDatesTrack issue workflow activeStatuses).2
      = getStagingDates issue workflow activeStatuses :=
  ⟨rfl, rfl⟩

/-- C10 (amended): under the precondition that every element of
`activeStatuses` is a stage of the workflow, the backward (Done) branch is
total: every duration-record lookup made for the reversed `activeStatuses`
array is defined, `didHappen` is never read from an absent record, and a
date vector is returned.  (The forward branch remains partial even under
the precondition, per the counterexample: a stage whose lowercase name is
`"done"` — but not literally `"Done"` — with a recorded entry date and no
anchor crashes.  Without the precondition the Done branch's `didHappen`
read is the failure point, while the forward branch silently ignores the
extraneous entry.) -/
theorem c10_done_branch_total (issue : JiraApiIssue) (workflow : Workflow)
    (activeStatuses : List String) (dm : Moment)
    (hsub : ∀ s ∈ activeStatuses, s ∈ workflow.stages)
    (hdone : mapGet (processInactiveStates workflow.stages activeStatuses
      (processHistories issue)) "Done" = some dm) :
    ∃ v, getStagingDates issue workflow activeStatuses = Except.ok v := by
  rw [getStagingDates_eq, hdone]
  simp only [mapDoneIssue]
  rw [hdone]
  obtain ⟨r, hr⟩ := doneLoop_ok
    (processActiveStatuses issue workflow.stages activeStatuses (processHistories issue)).1
    (activeStatusesReversedOf activeStatuses) dm []
    (by
      intro s hs
      have hmem : s ∈ activeStatuses := by
        simpa [activeStatusesReversedOf] using hs
      rw [processActiveStatuses_lookup issue workflow.stages activeStatuses
        (processHistories issue) s (hsub s hmem) (by simpa using hmem)]
      rfl)
  rw [hr]
  exact ⟨_, rfl⟩

/-- Witness for `c10_done_branch_total` at Scenario A. -/
theorem c10_done_branch_total_witness :
    (∀ s ∈ (["In Progress"] : List String), s ∈ wfA.stages) ∧
    ∃ v, getStagingDates issueA wfA ["In Progress"] = Except.ok v :=
  ⟨by decide, c10_done_branch_total issueA wfA ["In Progress"]
    (momentOf "2024-01-08") (by decide) rfl⟩
